import Mathlib

/-!
Verification of the diff-position tracker and incremental-review cache of the
PR review bot (`your_bot_module.py`, driver `pr_review.py`).

The Python functions are shallowly embedded below:
* `generate_review_comments` (comment generation and cache update),
* `get_cached_reviewed_lines` (cache loading from issue comments),
* `post_metadata_comment` (cache serialisation; modelled by the body it posts),
* the driver's post-review sequencing (`pr_review_main`).

Python strings are `String`; string primitives used by the code
(`startswith`, `split`) are given explicit character-list implementations
with Python's semantics.  `json.loads` / `json.dumps(·, indent=2)` are
modelled by a strict recursive-descent parser and printer over a JSON value
type covering the payloads the bot exchanges (string escapes are not used by
any payload below and are not modelled).  Python dicts are association lists
with first-match lookup and in-place update; `list(set(xs))` iterates a set
in an implementation-defined order, so it is modelled as a deduplication
(`List.dedup`) and the theorems rely on its ordering only up to membership,
or on singleton inputs where every order agrees.
-/

namespace PRBot

/-- A per-file patch record as returned by the host API (`pr.get_files()`):
`patch` is `none` when the host omits it (Python `None`). -/
structure PRFile where
  filename : String
  patch : Option String
  status : String
deriving DecidableEq, Repr

/-- An inline review comment `{path, position, body}`. -/
structure Comment where
  path : String
  position : Nat
  body : String
deriving DecidableEq, Repr

/-- A review cache: Python dict mapping file path to list of reviewed
positions, as an association list in insertion order with unique keys. -/
abbrev Cache := List (String × List Nat)

/-- First-match lookup, `dict.get(key)` as an `Option`. -/
def dictFind : Cache → String → Option (List Nat)
  | [], _ => none
  | (k, v) :: rest, key => if k = key then some v else dictFind rest key

/-- `dict.get(key, [])`. -/
def dictGet (c : Cache) (key : String) : List Nat :=
  (dictFind c key).getD []

/-- `dict[key] = v`: replace the binding in place if present, else append. -/
def dictSet : Cache → String → List Nat → Cache
  | [], key, v => [(key, v)]
  | (k, w) :: rest, key, v =>
    if k = key then (key, v) :: rest else (k, w) :: dictSet rest key v

/-- `list(set(xs))`.  CPython's set iteration order is implementation
defined; we model the conversion as deduplication and use it only up to
membership (or on singletons). -/
def pySetList (xs : List Nat) : List Nat := xs.dedup

/-- `s.startswith(p)`. -/
def strStartsWith (s p : String) : Bool := p.data.isPrefixOf s.data

/-- Worker for `s.split("\n")`. -/
def splitNlGo : List Char → List Char → List String
  | [], acc => [String.mk acc.reverse]
  | c :: cs, acc =>
    if c = '\n' then String.mk acc.reverse :: splitNlGo cs []
    else splitNlGo cs (c :: acc)

/-- `patch.split("\n")` (Python semantics: `"".split("\n") == [""]`,
trailing separator yields a trailing empty string). -/
def patchLines (s : String) : List String := splitNlGo s.data []

/-- The guard `if not file.patch or file.status == 'removed': continue`. -/
def skipFile (f : PRFile) : Bool :=
  (match f.patch with
   | none => true
   | some s => s = "") || f.status = "removed"

/-- The fixed suggestion text of every generated comment. -/
def suggestionText : String :=
  "💡 Review suggestion by dhp-pr-review-bot: Consider reviewing this line."

/-- The comment emitted for one position of one file. -/
def mkComment (filename : String) (position : Nat) : Comment :=
  { path := filename, position := position, body := suggestionText }

/-- The inner loop over `patch_lines`: starting from counter value
`position`, return (in order) the positions at which a comment is emitted —
lines starting with `+` but not `++` whose 1-based position is not in
`reviewed`.  These same positions are appended to the file's cache entry. -/
def scanLines (reviewed : List Nat) : List String → Nat → List Nat
  | [], _ => []
  | line :: rest, position =>
    if strStartsWith line "+" && !(strStartsWith line "++") then
      if (position + 1) ∈ reviewed then scanLines reviewed rest (position + 1)
      else (position + 1) :: scanLines reviewed rest (position + 1)
    else scanLines reviewed rest (position + 1)

/-- The loop of `generate_review_comments` over `pr.get_files()`, carrying
the `new_cache` dict built so far. -/
def generateGo : List PRFile → Cache → Cache → List Comment × Cache
  | [], _, newCache => ([], newCache)
  | file :: rest, cache, newCache =>
    if skipFile file then generateGo rest cache newCache
    else
      let reviewedPositions := pySetList (dictGet cache file.filename)
      let added := scanLines reviewedPositions (patchLines (file.patch.getD "")) 0
      let rec1 := generateGo rest cache
        (dictSet newCache file.filename (reviewedPositions ++ added))
      (added.map (mkComment file.filename) ++ rec1.1, rec1.2)

/-- `generate_review_comments(pr, cache)`: `new_cache` starts empty. -/
def generate_review_comments (files : List PRFile) (cache : Cache) :
    List Comment × Cache :=
  generateGo files cache []

/-! ### JSON values, `json.loads` and `json.dumps(·, indent=2)` -/

/-- JSON values, covering every payload the bot serialises or parses. -/
inductive Json where
  | null : Json
  | bool (b : Bool) : Json
  | num (n : Nat) : Json
  | str (s : String) : Json
  | arr (elems : List Json) : Json
  | obj (fields : List (String × Json)) : Json

/-- JSON whitespace. -/
def isWsChar (c : Char) : Bool := c = ' ' || c = '\n' || c = '\t' || c = '\r'

/-- Drop leading JSON whitespace. -/
def skipWs : List Char → List Char
  | [] => []
  | c :: cs => if isWsChar c then skipWs cs else c :: cs

/-- Characters of a JSON string body up to the closing quote (escape
sequences are not used by any payload in this development). -/
def strBodyChars : List Char → Option (List Char × List Char)
  | [] => none
  | c :: cs =>
    if c = '"' then some ([], cs)
    else if c = '\\' then none
    else match strBodyChars cs with
         | some (s, r) => some (c :: s, r)
         | none => none

/-- Longest digit prefix and the remainder. -/
def spanDigits : List Char → List Char × List Char
  | [] => ([], [])
  | c :: cs =>
    if c.isDigit then
      let (ds, r) := spanDigits cs
      (c :: ds, r)
    else ([], c :: cs)

/-- Decimal value of a digit string. -/
def natOfDigits (ds : List Char) : Nat :=
  ds.foldl (fun n c => n * 10 + (c.toNat - 48)) 0

mutual

/-- Parse one JSON value (fuelled recursive descent); returns the value and
the unconsumed remainder. -/
def parseVal : Nat → List Char → Option (Json × List Char)
  | 0, _ => none
  | fuel + 1, cs =>
    match skipWs cs with
    | 'n' :: 'u' :: 'l' :: 'l' :: r => some (.null, r)
    | 't' :: 'r' :: 'u' :: 'e' :: r => some (.bool true, r)
    | 'f' :: 'a' :: 'l' :: 's' :: 'e' :: r => some (.bool false, r)
    | '"' :: r =>
      (match strBodyChars r with
       | some (s, r1) => some (.str (String.mk s), r1)
       | none => none)
    | '[' :: r =>
      (match skipWs r with
       | ']' :: r1 => some (.arr [], r1)
       | r1 =>
         match parseElems fuel r1 with
         | some (vs, r2) => some (.arr vs, r2)
         | none => none)
    | '{' :: r =>
      (match skipWs r with
       | '}' :: r1 => some (.obj [], r1)
       | r1 =>
         match parseMembers fuel r1 with
         | some (kvs, r2) => some (.obj kvs, r2)
         | none => none)
    | c :: r =>
      if c.isDigit then
        let (ds, r1) := spanDigits r
        some (.num (natOfDigits (c :: ds)), r1)
      else none
    | [] => none

/-- Parse the comma-separated elements of a non-empty array, consuming the
closing bracket. -/
def parseElems : Nat → List Char → Option (List Json × List Char)
  | 0, _ => none
  | fuel + 1, cs =>
    match parseVal fuel cs with
    | some (v, r) =>
      (match skipWs r with
       | ',' :: r1 =>
         (match parseElems fuel r1 with
          | some (vs, r2) => some (v :: vs, r2)
          | none => none)
       | ']' :: r1 => some ([v], r1)
       | _ => none)
    | none => none

/-- Parse the members of a non-empty object, consuming the closing brace. -/
def parseMembers : Nat → List Char → Option (List (String × Json) × List Char)
  | 0, _ => none
  | fuel + 1, cs =>
    match skipWs cs with
    | '"' :: r =>
      (match strBodyChars r with
       | some (k, r1) =>
         (match skipWs r1 with
          | ':' :: r2 =>
            (match parseVal fuel r2 with
             | some (v, r3) =>
               (match skipWs r3 with
                | ',' :: r4 =>
                  (match parseMembers fuel r4 with
                   | some (kvs, r5) => some ((String.mk k, v) :: kvs, r5)
                   | none => none)
                | '}' :: r4 => some ([(String.mk k, v)], r4)
                | _ => none)
             | none => none)
          | _ => none)
       | none => none)
    | _ => none

end

/-- `json.loads(s)`: one JSON document, with only whitespace allowed after
it — trailing non-whitespace raises `Extra data`, modelled as `none`. -/
def json_loads (s : String) : Option Json :=
  match parseVal (2 * s.length + 4) s.data with
  | some (v, rest) => if (skipWs rest).isEmpty then some v else none
  | none => none

/-- `n` spaces. -/
def padSp (n : Nat) : String := String.mk (List.replicate n ' ')

/-- Join indented item lines with the `",\n"` separator that
`json.dumps(·, indent=2)` uses. -/
def joinCommaNl : List String → String
  | [] => ""
  | [s] => s
  | s :: rest => s ++ ",\n" ++ joinCommaNl rest

mutual

/-- `json.dumps(j, indent=2)` at current indentation `indent`. -/
def dumpsJ : Json → Nat → String
  | .null, _ => "null"
  | .bool true, _ => "true"
  | .bool false, _ => "false"
  | .num n, _ => toString n
  | .str s, _ => "\"" ++ s ++ "\""
  | .arr [], _ => "[]"
  | .arr (x :: xs), indent =>
    "[\n" ++ joinCommaNl (dumpsList (x :: xs) (indent + 2)) ++ "\n" ++
      padSp indent ++ "]"
  | .obj [], _ => "\x7b\x7d"
  | .obj (kv :: kvs), indent =>
    "\x7b\n" ++ joinCommaNl (dumpsFields (kv :: kvs) (indent + 2)) ++ "\n" ++
      padSp indent ++ "\x7d"

/-- Item lines of an array. -/
def dumpsList : List Json → Nat → List String
  | [], _ => []
  | x :: xs, indent => (padSp indent ++ dumpsJ x indent) :: dumpsList xs indent

/-- Member lines of an object (key separator `": "`). -/
def dumpsFields : List (String × Json) → Nat → List String
  | [], _ => []
  | (k, v) :: kvs, indent =>
    (padSp indent ++ "\"" ++ k ++ "\": " ++ dumpsJ v indent) :: dumpsFields kvs indent

end

/-! ### Cache persistence: `post_metadata_comment` / `get_cached_reviewed_lines` -/

/-- The cache as the JSON object stored in the `"reviewed"` field. -/
def cacheToJson (c : Cache) : Json :=
  .obj (c.map (fun kv => (kv.1, .arr (kv.2.map .num))))

/-- The sentinel marker opening every metadata comment. -/
def metaMarker : String := "<!-- dhp-pr-review-bot-meta"

/-- The body of the issue comment `post_metadata_comment` creates:
`f"<!-- dhp-pr-review-bot-meta\n‹json.dumps(meta, indent=2)›\n-->"` with
`meta = {"reviewed": reviewed_lines_dict}`. -/
def metadata_comment_body (reviewed : Cache) : String :=
  metaMarker ++ "\n" ++ dumpsJ (.obj [("reviewed", cacheToJson reviewed)]) 0 ++ "\n-->"

/-- Worker for `body.split('\n', 1)[1]`. -/
def splitOnceNlGo : List Char → Option String
  | [] => none
  | c :: r => if c = '\n' then some (String.mk r) else splitOnceNlGo r

/-- `body.split('\n', 1)[1]`: everything after the first newline; `none`
models the `IndexError` raised when the body has no newline. -/
def splitOnceNl (s : String) : Option String := splitOnceNlGo s.data

/-- Positions read from one file's JSON cache entry. -/
def jsonNatList : Json → List Nat
  | .arr xs => xs.filterMap (fun v => match v with | .num n => some n | _ => none)
  | _ => []

/-- The `reviewed` JSON object read back as a `Cache`. -/
def jsonToCache : Json → Cache
  | .obj kvs => kvs.map (fun kv => (kv.1, jsonNatList kv.2))
  | _ => []

/-- `meta.get("reviewed", {})`: defined only when `meta` is a dict — on any
other value Python raises `AttributeError`, modelled as `none`. -/
def metaReviewed (j : Json) : Option Json :=
  match j with
  | .obj kvs => some ((kvs.lookup "reviewed").getD (.obj []))
  | _ => none

/-- `get_cached_reviewed_lines(pr)` over the ordered bodies of
`pr.get_issue_comments()`: any exception inside the `try` (missing newline,
JSON decode error, non-dict payload) is caught and the loop continues;
reaching `meta.get("reviewed", {})` returns. -/
def get_cached_reviewed_lines : List String → Cache
  | [] => []
  | body :: rest =>
    if strStartsWith body metaMarker then
      match splitOnceNl body with
      | none => get_cached_reviewed_lines rest
      | some payload =>
        match json_loads payload with
        | none => get_cached_reviewed_lines rest
        | some meta =>
          match metaReviewed meta with
          | none => get_cached_reviewed_lines rest
          | some r => jsonToCache r
    else get_cached_reviewed_lines rest

/-! ### The driver `pr_review.py` (post-review sequencing) -/

/-- One host-API side effect (or console print) of the driver. -/
inductive HostAction where
  | createReview (body : String) (event : String) (comments : List Comment)
  | createIssueComment (body : String)
  | printed (msg : String)
deriving DecidableEq

/-- The bot's reviewer identity. -/
def BOT_USER : String := "dhp-pr-review-bot"

/-- The review body posted with the inline comments. -/
def reviewBody : String := "🤖 dhp-pr-review-bot reviewed this PR."

/-- The driver script after configuration: gate on the bot being a requested
reviewer, load the cache, generate comments, and — only when there are
comments — post the review and then the metadata comment. -/
def pr_review_main (reviewers : List String) (issueComments : List String)
    (files : List PRFile) : List HostAction :=
  if BOT_USER ∈ reviewers then
    let reviewed_cache := get_cached_reviewed_lines issueComments
    let r := generate_review_comments files reviewed_cache
    if r.1.isEmpty then [.printed "No new comments to post."]
    else [.createReview reviewBody "COMMENT" r.1,
          .createIssueComment (metadata_comment_body r.2)]
  else [.printed "Bot not requested as reviewer. Skipping."]

/-! ### Spec-side definitions -/

/-- A line that generates a comment: starts with `+` but not `++`. -/
def isAddLine (line : String) : Bool :=
  strStartsWith line "+" && !(strStartsWith line "++")

/-- Stated from the spec's words, for comparison with `scanLines`: the
1-based indices, in the full newline-split line sequence of a patch, of the
lines matching `^\+(?!\+)`. -/
def addLinePositions (patch : String) : List Nat :=
  (((patchLines patch).enumFrom 1).filter (fun p => isAddLine p.2)).map Prod.fst

/-- The cache entry `generate_review_comments` records for a processed file:
the deduplicated old entry followed by the positions commented in this run. -/
def entryOf (f : PRFile) (cache : Cache) : List Nat :=
  pySetList (dictGet cache f.filename) ++
    scanLines (pySetList (dictGet cache f.filename)) (patchLines (f.patch.getD "")) 0

/-- A comment body on which `get_cached_reviewed_lines` would continue past
a sentinel comment or return the empty cache: the payload after the first
newline is missing, fails to parse as JSON, is not a JSON object, or is an
object without the `"reviewed"` field. -/
def degenerateBody (body : String) : Bool :=
  match splitOnceNl body with
  | none => true
  | some payload =>
    match json_loads payload with
    | none => true
    | some (.obj kvs) => (kvs.lookup "reviewed").isNone
    | some _ => true

/-- A comment at which `get_cached_reviewed_lines` returns (rather than
continuing): it carries the sentinel marker and its payload parses as a
JSON object. -/
def returningBody (body : String) : Bool :=
  strStartsWith body metaMarker &&
    (match splitOnceNl body with
     | none => false
     | some payload =>
       match json_loads payload with
       | some (.obj _) => true
       | _ => false)

/-! ### Helper lemmas -/

theorem mem_pySetList {a : Nat} {xs : List Nat} : a ∈ pySetList xs ↔ a ∈ xs :=
  List.mem_dedup

theorem scanLines_nil_eq (ls : List String) (pos : Nat) :
    scanLines [] ls pos =
      ((ls.enumFrom (pos + 1)).filter (fun p => isAddLine p.2)).map Prod.fst := by
  induction ls generalizing pos with
  | nil => rfl
  | cons l ls ih =>
    show scanLines [] (l :: ls) pos =
      (((pos + 1, l) :: ls.enumFrom (pos + 2)).filter (fun p => isAddLine p.2)).map Prod.fst
    rw [scanLines]
    cases h : strStartsWith l "+" && !(strStartsWith l "++") with
    | true =>
      simp only [h, if_true, List.not_mem_nil, if_false, List.filter_cons]
      have : isAddLine l = true := h
      simp [this, ih]
    | false =>
      have : isAddLine l = false := h
      simp [h, List.filter_cons, this, ih]

theorem scanLines_eq_filter (reviewed : List Nat) (ls : List String) (pos : Nat) :
    scanLines reviewed ls pos =
      (scanLines [] ls pos).filter (fun p => decide (p ∉ reviewed)) := by
  induction ls generalizing pos with
  | nil => rfl
  | cons l ls ih =>
    rw [scanLines, scanLines]
    cases h : strStartsWith l "+" && !(strStartsWith l "++") with
    | true =>
      simp only [h, if_true, List.not_mem_nil, if_false, List.filter_cons]
      by_cases hm : (pos + 1) ∈ reviewed
      · simp [hm, ih]
      · simp [hm, ih]
    | false => simp [h, ih]

theorem mem_scanLines {p : Nat} {reviewed : List Nat} {ls : List String} {pos : Nat} :
    p ∈ scanLines reviewed ls pos ↔ p ∈ scanLines [] ls pos ∧ p ∉ reviewed := by
  rw [scanLines_eq_filter, List.mem_filter]
  simp

theorem scanLines_eq_nil_of_subset {reviewed : List Nat} {ls : List String} {pos : Nat}
    (h : ∀ p ∈ scanLines [] ls pos, p ∈ reviewed) : scanLines reviewed ls pos = [] := by
  rw [scanLines_eq_filter]
  refine List.filter_eq_nil_iff.2 fun a ha => ?_
  simpa using h a ha

theorem dictFind_dictSet_self (c : Cache) (k : String) (v : List Nat) :
    dictFind (dictSet c k v) k = some v := by
  induction c with
  | nil => simp [dictSet, dictFind]
  | cons kv rest ih =>
    obtain ⟨k', w⟩ := kv
    by_cases h : k' = k
    · simp [dictSet, dictFind, h]
    · simp [dictSet, dictFind, h, ih]

theorem dictFind_dictSet_ne (c : Cache) (k : String) (v : List Nat) (name : String)
    (h : name ≠ k) : dictFind (dictSet c k v) name = dictFind c name := by
  have hk : k ≠ name := fun e => h e.symm
  induction c with
  | nil => simp [dictSet, dictFind, hk]
  | cons kv rest ih =>
    obtain ⟨k', w⟩ := kv
    by_cases h' : k' = k
    · subst h'
      simp [dictSet, dictFind, hk]
    · by_cases h'' : k' = name <;> simp [dictSet, dictFind, h', h'', h, ih]

theorem generateGo_fst (files : List PRFile) (cache acc : Cache) :
    (generateGo files cache acc).1 =
      files.flatMap (fun f =>
        if skipFile f then []
        else (scanLines (pySetList (dictGet cache f.filename))
                (patchLines (f.patch.getD "")) 0).map (mkComment f.filename)) := by
  induction files generalizing acc with
  | nil => rfl
  | cons f fs ih =>
    cases h : skipFile f with
    | true => simp [generateGo, h, ih]
    | false => simp [generateGo, h, ih]

theorem generateGo_snd_frame (files : List PRFile) (cache acc : Cache) (name : String)
    (h : name ∉ (files.filter (fun f => !skipFile f)).map PRFile.filename) :
    dictFind (generateGo files cache acc).2 name = dictFind acc name := by
  induction files generalizing acc with
  | nil => rfl
  | cons f fs ih =>
    cases hs : skipFile f with
    | true =>
      rw [List.filter_cons] at h
      simp only [hs] at h
      simpa [generateGo, hs] using ih acc h
    | false =>
      rw [List.filter_cons] at h
      simp only [hs, Bool.not_false, if_true, List.map_cons, List.mem_cons] at h
      push_neg at h
      obtain ⟨hne, hrest⟩ := h
      simp only [generateGo, hs, Bool.false_eq_true, if_false]
      rw [ih _ hrest, dictFind_dictSet_ne _ _ _ _ hne]

theorem filterMap_subset_map (files : List PRFile) :
    ((files.filter (fun f => !skipFile f)).map PRFile.filename) ⊆
      files.map PRFile.filename := by
  intro x hx
  simp only [List.mem_map] at hx ⊢
  obtain ⟨f, hf, rfl⟩ := hx
  exact ⟨f, List.mem_of_mem_filter hf, rfl⟩

theorem generateGo_snd_lookup (files : List PRFile) (cache acc : Cache) (f : PRFile)
    (hnd : (files.map PRFile.filename).Nodup) (hf : f ∈ files)
    (hs : skipFile f = false) :
    dictFind (generateGo files cache acc).2 f.filename = some (entryOf f cache) := by
  induction files generalizing acc with
  | nil => cases hf
  | cons g fs ih =>
    rw [List.map_cons, List.nodup_cons] at hnd
    obtain ⟨hgn, hnd'⟩ := hnd
    rcases List.mem_cons.1 hf with hfg | hfs
    · subst hfg
      simp only [generateGo, hs, Bool.false_eq_true, if_false]
      have hframe : f.filename ∉ (fs.filter (fun f => !skipFile f)).map PRFile.filename :=
        fun hmem => hgn (filterMap_subset_map fs hmem)
      rw [generateGo_snd_frame _ _ _ _ hframe, dictFind_dictSet_self]
      rfl
    · cases hg : skipFile g with
      | true => simpa [generateGo, hg] using ih acc hnd' hfs
      | false =>
        simp only [generateGo, hg, Bool.false_eq_true, if_false]
        exact ih _ hnd' hfs

theorem flatMap_congr {l : List PRFile} {f g : PRFile → List Comment}
    (h : ∀ a ∈ l, f a = g a) : l.flatMap f = l.flatMap g := by
  induction l with
  | nil => rfl
  | cons a l ih =>
    rw [List.flatMap_cons, List.flatMap_cons, h a (by simp),
      ih fun b hb => h b (by simp [hb])]

theorem scanLines_nil_eq_addLinePositions (patch : String) :
    scanLines [] (patchLines patch) 0 = addLinePositions patch := by
  rw [scanLines_nil_eq]
  rfl

/-! ### Claims -/

/-- C1 counterexample: a file with status `"removed"` whose patch line
`"+gone"` starts with `+` (and not `++`) produces no comment at all, so,
quantified over every list of files, the per-add-line comment property
fails. -/
theorem c1_counterexample :
    isAddLine "+gone" = true ∧
      (generate_review_comments [⟨"dead.py", some "+gone", "removed"⟩] []).1 = [] := by
  decide

/-- C1 (amended): with an empty cache, `generate_review_comments` emits exactly one
comment per patch line starting with `+` but not `++`, whose position is
that line's 1-based index in the full newline-split line sequence of the
patch (header and context lines counted), and no other line produces a
comment.  Stated for files the loop processes (non-empty patch, status not
`"removed"`); skipped files are the subject of C8. -/
theorem c1_empty_cache_comment_per_add_line (files : List PRFile)
    (h : ∀ f ∈ files, skipFile f = false) :
    (generate_review_comments files []).1 =
      files.flatMap (fun f =>
        (addLinePositions (f.patch.getD "")).map (mkComment f.filename)) := by
  rw [generate_review_comments, generateGo_fst]
  refine flatMap_congr fun f hf => ?_
  rw [h f hf]
  simp only [Bool.false_eq_true, if_false]
  have hget : dictGet ([] : Cache) f.filename = [] := rfl
  rw [hget]
  show (scanLines [] (patchLines (f.patch.getD "")) 0).map (mkComment f.filename) = _
  rw [scanLines_nil_eq_addLinePositions]

/-- C1 witness: the theorem applied to one concrete two-addition patch. -/
theorem c1_empty_cache_comment_per_add_line_witness :
    (generate_review_comments [⟨"a.py", some "+x\n y\n+z", "modified"⟩] []).1 =
      ([⟨"a.py", some "+x\n y\n+z", "modified"⟩] : List PRFile).flatMap (fun f =>
        (addLinePositions (f.patch.getD "")).map (mkComment f.filename)) :=
  c1_empty_cache_comment_per_add_line _ (by decide)

/-- C2 counterexample: when the same filename occurs twice in the files list
with different patches, the `new_cache` entry of the second occurrence
overwrites that of the first, so feeding `new_cache` back re-emits the first
occurrence's comments — the second call is not empty. -/
theorem c2_counterexample :
    (generate_review_comments
        [⟨"a", some "+x\n+w", "modified"⟩, ⟨"a", some "ctx\n+y", "modified"⟩]
        (generate_review_comments
          [⟨"a", some "+x\n+w", "modified"⟩, ⟨"a", some "ctx\n+y", "modified"⟩]
          []).2).1 ≠ [] := by decide

/-- C2 (amended): when no filename occurs twice in the files list, feeding
the returned `new_cache` back as the cache for the identical files list
yields zero comments on the second call. -/
theorem c2_idempotent_of_nodup_filenames (files : List PRFile) (cache : Cache)
    (hnd : (files.map PRFile.filename).Nodup) :
    (generate_review_comments files
        (generate_review_comments files cache).2).1 = [] := by
  show (generateGo files (generate_review_comments files cache).2 []).1 = []
  rw [generateGo_fst]
  refine List.flatMap_eq_nil_iff.2 fun f hf => ?_
  cases hs : skipFile f with
  | true => simp [hs]
  | false =>
    have hdg : dictGet (generate_review_comments files cache).2 f.filename =
        entryOf f cache := by
      rw [dictGet, generate_review_comments,
        generateGo_snd_lookup files cache [] f hnd hf hs]
      rfl
    suffices hsc : scanLines
        (pySetList (dictGet (generate_review_comments files cache).2 f.filename))
        (patchLines (f.patch.getD "")) 0 = [] by
      simp [hs, hsc]
    rw [hdg]
    apply scanLines_eq_nil_of_subset
    intro p hp
    rw [mem_pySetList]
    by_cases hmem : p ∈ pySetList (dictGet cache f.filename)
    · exact List.mem_append_left _ hmem
    · exact List.mem_append_right _ (mem_scanLines.2 ⟨hp, hmem⟩)

/-- C2 witness: the amended theorem applied to two distinct files. -/
theorem c2_idempotent_of_nodup_filenames_witness :
    (generate_review_comments
        [⟨"a.py", some "+x", "modified"⟩, ⟨"b.py", some "ctx\n+y", "modified"⟩]
        (generate_review_comments
          [⟨"a.py", some "+x", "modified"⟩, ⟨"b.py", some "ctx\n+y", "modified"⟩]
          [("a.py", [7])]).2).1 = [] :=
  c2_idempotent_of_nodup_filenames _ _ (by decide)

/-- C3 (code bug): the cache comment posted by `post_metadata_comment` ends
in `"\n-->"` after the JSON payload, but `get_cached_reviewed_lines` passes
everything after the first newline — including the trailing `-->` — to
`json.loads`, which rejects trailing non-whitespace (`Extra data`).  The
exception is swallowed and the loop continues, so reading back the comment
just posted for the cache `{"f.py": [3]}` yields the empty cache, not the
cache that was saved. -/
theorem c3_roundtrip_returns_empty :
    get_cached_reviewed_lines [metadata_comment_body [("f.py", [3])]] = [] ∧
      get_cached_reviewed_lines [metadata_comment_body [("f.py", [3])]] ≠
        [("f.py", [3])] := by decide

/-- C4 counterexample: a cache entry for a file absent from the run is not
preserved — with no files at all, the entry of `"g.py"` disappears from the
returned `new_cache`. -/
theorem c4_counterexample :
    dictFind (generate_review_comments [] [("g.py", [1])]).2 "g.py" ≠ some [1] ∧
      dictFind (generate_review_comments [] [("g.py", [1])]).2 "g.py" = none := by
  decide

/-- C4 (amended): `new_cache` is seeded empty, so every filename absent from
the current run's files list has no entry at all in the returned
`new_cache` — input entries for such files are dropped, not preserved. -/
theorem c4_absent_files_dropped (files : List PRFile) (cache : Cache)
    (name : String) (h : name ∉ files.map PRFile.filename) :
    dictFind (generate_review_comments files cache).2 name = none := by
  rw [generate_review_comments, generateGo_snd_frame]
  · rfl
  · exact fun hmem => h (filterMap_subset_map files hmem)

/-- C4 witness: the amended theorem applied to a one-file run and a cache
holding an entry for a different file. -/
theorem c4_absent_files_dropped_witness :
    dictFind (generate_review_comments [⟨"a.py", some "+x", "modified"⟩]
        [("b.py", [2])]).2 "b.py" = none :=
  c4_absent_files_dropped _ _ _ (by decide)

/-- C5 counterexample: the cache does shrink — position 5 is recorded for
`"old.py"` in the input cache, but `"old.py"` is not in the run's files
list, so its entry (position 5 included) is gone from the returned
`new_cache`. -/
theorem c5_counterexample :
    5 ∈ dictGet [("old.py", [5])] "old.py" ∧
      5 ∉ dictGet (generate_review_comments [⟨"m.py", some "+q", "modified"⟩]
          [("old.py", [5])]).2 "old.py" := by decide

/-- C5 (amended): for every file the run processes (filenames distinct,
file not skipped), the `new_cache` entry never shrinks — it contains every
position of the input cache entry — and every position in it comes either
from the input entry or is a valid add-position of that file's patch in
this run.  Entries of files absent from the run are dropped (see the
counterexample), so monotonicity holds only per processed file. -/
theorem c5_cache_monotone_for_processed_files (files : List PRFile)
    (cache : Cache) (f : PRFile) (hnd : (files.map PRFile.filename).Nodup)
    (hf : f ∈ files) (hs : skipFile f = false) :
    (∀ p ∈ dictGet cache f.filename,
        p ∈ dictGet (generate_review_comments files cache).2 f.filename) ∧
    (∀ p ∈ dictGet (generate_review_comments files cache).2 f.filename,
        p ∈ dictGet cache f.filename ∨ p ∈ addLinePositions (f.patch.getD "")) := by
  have hdg : dictGet (generate_review_comments files cache).2 f.filename =
      entryOf f cache := by
    rw [dictGet, generate_review_comments,
      generateGo_snd_lookup files cache [] f hnd hf hs]
    rfl
  rw [hdg]
  constructor
  · exact fun p hp => List.mem_append_left _ (mem_pySetList.2 hp)
  · intro p hp
    rcases List.mem_append.1 hp with h1 | h2
    · exact Or.inl (mem_pySetList.1 h1)
    · exact Or.inr (scanLines_nil_eq_addLinePositions _ ▸ (mem_scanLines.1 h2).1)

/-- C5 witness: at a one-file run whose input entry holds position 9, the
amended theorem puts 9 into the output entry. -/
theorem c5_cache_monotone_for_processed_files_witness :
    9 ∈ dictGet (generate_review_comments [⟨"a.py", some "+x", "modified"⟩]
        [("a.py", [9])]).2 "a.py" :=
  (c5_cache_monotone_for_processed_files [⟨"a.py", some "+x", "modified"⟩]
      [("a.py", [9])] ⟨"a.py", some "+x", "modified"⟩
      (by decide) (by decide) (by decide)).1 9 (by decide)

/-- C6: `get_cached_reviewed_lines` fails soft — whenever every comment
either does not carry the sentinel marker or is degenerate (no newline,
malformed JSON payload, payload not an object, or object without the
`"reviewed"` field), it returns the empty cache; being a total function, no
exception escapes. -/
theorem c6_load_cache_fails_soft (comments : List String)
    (h : ∀ b ∈ comments, strStartsWith b metaMarker = true →
      degenerateBody b = true) :
    get_cached_reviewed_lines comments = [] := by
  induction comments with
  | nil => rfl
  | cons body rest ih =>
    have hrest := ih fun b hb hs => h b (by simp [hb]) hs
    cases hsw : strStartsWith body metaMarker with
    | false => simpa [get_cached_reviewed_lines, hsw] using hrest
    | true =>
      have hbad := h body (by simp) hsw
      rw [get_cached_reviewed_lines]
      simp only [hsw, if_true]
      cases hsp : splitOnceNl body with
      | none => simpa [hsp] using hrest
      | some payload =>
        simp only [hsp]
        cases hj : json_loads payload with
        | none => simpa [hj] using hrest
        | some meta =>
          simp only [hj]
          cases hm : metaReviewed meta with
          | none => simpa [hm] using hrest
          | some r =>
            simp only [hm]
            cases meta with
            | obj kvs =>
              simp only [degenerateBody, hsp, hj] at hbad
              simp only [metaReviewed, Option.some.injEq] at hm
              rw [← hm, Option.isNone_iff_eq_none.1 hbad]
              rfl
            | null => simp [metaReviewed] at hm
            | bool b => simp [metaReviewed] at hm
            | num n => simp [metaReviewed] at hm
            | str s => simp [metaReviewed] at hm
            | arr xs => simp [metaReviewed] at hm

/-- C6 witness: a list with a non-sentinel comment and three degenerate
sentinel comments (no newline; unparseable payload; object without the
`"reviewed"` field) loads as the empty cache. -/
theorem c6_load_cache_fails_soft_witness :
    get_cached_reviewed_lines
        ["hello",
         "<!-- dhp-pr-review-bot-meta no newline",
         "<!-- dhp-pr-review-bot-meta\nnot json!",
         "<!-- dhp-pr-review-bot-meta\n\x7b\"other\": 1\x7d"] = [] :=
  c6_load_cache_fails_soft _ (by decide)

/-- C7 counterexample: with two sentinel comments, the first malformed and
the second well-formed, `get_cached_reviewed_lines` returns the second's
cache — not the cache of the first matching comment (which alone would load
as the empty cache). -/
theorem c7_counterexample :
    get_cached_reviewed_lines
        ["<!-- dhp-pr-review-bot-meta\nnot json",
         "<!-- dhp-pr-review-bot-meta\n\x7b\"reviewed\": \x7b\"a\": [1]\x7d\x7d"] =
      [("a", [1])] ∧
    get_cached_reviewed_lines ["<!-- dhp-pr-review-bot-meta\nnot json"] = [] := by
  decide

/-- C7 (amended): `get_cached_reviewed_lines` deterministically returns the
cache of the first comment at which the scan returns — the first sentinel
comment whose payload parses as a JSON object; earlier comments that lack
the marker or whose payload is missing, malformed, or not an object are
skipped, and everything after that comment is ignored. -/
theorem c7_first_returning_sentinel_wins (pre : List String) (body : String)
    (rest : List String) (hpre : ∀ b ∈ pre, returningBody b = false)
    (hb : returningBody body = true) :
    get_cached_reviewed_lines (pre ++ body :: rest) =
      get_cached_reviewed_lines [body] := by
  induction pre with
  | nil =>
    simp only [returningBody, Bool.and_eq_true] at hb
    obtain ⟨hsw, hret⟩ := hb
    rw [List.nil_append, get_cached_reviewed_lines, get_cached_reviewed_lines]
    simp only [hsw, if_true]
    cases hsp : splitOnceNl body with
    | none => simp [hsp] at hret
    | some payload =>
      simp only [hsp] at hret ⊢
      cases hj : json_loads payload with
      | none => simp [hj] at hret
      | some meta =>
        simp only [hj] at hret ⊢
        cases meta
        case obj kvs => rfl
        all_goals simp at hret
  | cons g pre' ih =>
    have hg := hpre g (by simp)
    have hpre' : ∀ b ∈ pre', returningBody b = false :=
      fun b hb' => hpre b (by simp [hb'])
    rw [List.cons_append, get_cached_reviewed_lines]
    cases hsw : strStartsWith g metaMarker with
    | false => simpa [hsw] using ih hpre'
    | true =>
      simp only [hsw, if_true]
      simp only [returningBody, hsw, Bool.true_and] at hg
      cases hsp : splitOnceNl g with
      | none => simpa [hsp] using ih hpre'
      | some payload =>
        simp only [hsp] at hg ⊢
        cases hj : json_loads payload with
        | none => simpa [hj] using ih hpre'
        | some meta =>
          simp only [hj] at hg ⊢
          cases meta
          case obj kvs => simp at hg
          all_goals simpa [metaReviewed] using ih hpre'

/-- C7 witness: the amended theorem applied to a list whose first returning
sentinel comment holds the cache of `"b"`, preceded by a non-sentinel
comment and a malformed sentinel comment and followed by another sentinel
comment. -/
theorem c7_first_returning_sentinel_wins_witness :
    get_cached_reviewed_lines
        (["x", "<!-- dhp-pr-review-bot-meta\nnot json"] ++
          "<!-- dhp-pr-review-bot-meta\n\x7b\"reviewed\": \x7b\"b\": [2]\x7d\x7d" ::
            ["<!-- dhp-pr-review-bot-meta\n\x7b\"reviewed\": \x7b\"c\": [3]\x7d\x7d"]) =
      get_cached_reviewed_lines
        ["<!-- dhp-pr-review-bot-meta\n\x7b\"reviewed\": \x7b\"b\": [2]\x7d\x7d"] :=
  c7_first_returning_sentinel_wins _ _ _ (by decide) (by decide)

theorem generateGo_erase_skipped (f : PRFile) (hf : skipFile f = true)
    (pre post : List PRFile) (cache acc : Cache) :
    generateGo (pre ++ f :: post) cache acc = generateGo (pre ++ post) cache acc := by
  induction pre generalizing acc with
  | nil => simp [generateGo, hf]
  | cons g pre' ih =>
    cases hg : skipFile g with
    | true =>
      simp only [List.cons_append, generateGo, hg, if_true]
      exact ih acc
    | false =>
      simp only [List.cons_append, generateGo, hg, Bool.false_eq_true, if_false,
        List.append_eq]
      rw [ih]

/-- C8: a file whose patch is empty or absent, or whose status is
`"removed"`, contributes nothing — deleting it from the files list changes
neither the comments nor the `new_cache` returned by
`generate_review_comments`, for any surrounding files and any cache. -/
theorem c8_skipped_files_contribute_nothing (pre post : List PRFile)
    (f : PRFile) (cache : Cache) (hf : skipFile f = true) :
    generate_review_comments (pre ++ f :: post) cache =
      generate_review_comments (pre ++ post) cache :=
  generateGo_erase_skipped f hf pre post cache []

/-- C8 witness: a removed file with a nonempty patch contributes no comment
and no cache entry. -/
theorem c8_skipped_files_contribute_nothing_witness :
    generate_review_comments
        [⟨"dead.py", some "+gone", "removed"⟩, ⟨"b.py", some "+y", "modified"⟩]
        [] =
      generate_review_comments [⟨"b.py", some "+y", "modified"⟩] [] :=
  c8_skipped_files_contribute_nothing [] [⟨"b.py", some "+y", "modified"⟩]
    ⟨"dead.py", some "+gone", "removed"⟩ [] (by decide)

/-- C9: on the example patch `"@@ -1,2 +1,3 @@\n-foo\n+bar\n+baz\n context"`
with cache mapping `"f.py"` to `[3]`, exactly one comment is emitted, at
position 4, and the new cache entry for `"f.py"` is `[3, 4]`. -/
theorem c9_example_patch :
    generate_review_comments
        [⟨"f.py", some "@@ -1,2 +1,3 @@\n-foo\n+bar\n+baz\n context", "modified"⟩]
        [("f.py", [3])] =
      ([mkComment "f.py" 4], [("f.py", [3, 4])]) := by decide

/-- C10: the driver posts nothing on a no-op run — when the generated
comments list is empty, the trace contains neither a `create_review` nor a
`create_issue_comment` call; and whenever the metadata (cache) comment is
posted, at least one comment was generated and the trace starts with the
`create_review` call, so the cache comment comes only after it. -/
theorem c10_no_post_without_comments (reviewers issueComments : List String)
    (files : List PRFile) :
    ((generate_review_comments files (get_cached_reviewed_lines issueComments)).1 = [] →
      (∀ b e cs, HostAction.createReview b e cs ∉
        pr_review_main reviewers issueComments files) ∧
      (∀ b, HostAction.createIssueComment b ∉
        pr_review_main reviewers issueComments files)) ∧
    (∀ b, HostAction.createIssueComment b ∈
        pr_review_main reviewers issueComments files →
      (generate_review_comments files (get_cached_reviewed_lines issueComments)).1 ≠ [] ∧
      (pr_review_main reviewers issueComments files).head? =
        some (.createReview reviewBody "COMMENT"
          (generate_review_comments files (get_cached_reviewed_lines issueComments)).1)) := by
  unfold pr_review_main
  by_cases hrv : BOT_USER ∈ reviewers
  · simp only [hrv, if_true]
    cases hemp : (generate_review_comments files
        (get_cached_reviewed_lines issueComments)).1.isEmpty with
    | true =>
      simp only [hemp, if_true]
      constructor
      · exact fun _ => ⟨fun b e cs => by simp, fun b => by simp⟩
      · intro b hb
        simp at hb
    | false =>
      simp only [hemp, Bool.false_eq_true, if_false]
      have hne : (generate_review_comments files
          (get_cached_reviewed_lines issueComments)).1 ≠ [] := by
        intro h
        rw [h] at hemp
        simp at hemp
      constructor
      · exact fun h => absurd h hne
      · intro b hb
        exact ⟨hne, rfl⟩
  · simp only [hrv, if_false]
    constructor
    · exact fun _ => ⟨fun b e cs => by simp, fun b => by simp⟩
    · intro b hb
      simp at hb

/-- C10 witness: on a run with no files, the theorem yields that no issue
comment is posted. -/
theorem c10_no_post_without_comments_witness :
    HostAction.createIssueComment "z" ∉ pr_review_main ["dhp-pr-review-bot"] [] [] :=
  ((c10_no_post_without_comments ["dhp-pr-review-bot"] [] []).1 (by decide)).2 "z"

end PRBot
